import Mathlib

/-!
Verification development for the hypothesis-testing pipeline of the
car-insurance-risk-modeling repository.  The repository's notebook imports
three functions (`prepare_hypothesis_data`, `check_group_equivalence`,
`run_all_hypothesis_tests`) from `scripts/hypothesis.py`; that module's code
is not part of the sources available here, so the functions are modelled
from the specification, faithfully to its words.  Tables are shallowly
embedded as lists of rows, a row being an association list from column
names to values; p-value kernels of the external statistics library
(chi-squared survival function, two-sample t-test) are abstracted as a
parameter structure `PModel` carrying only their interface contract
(p-values lie in [0,1]).
-/

/-- A cell value of the tabular dataset: numeric, string, or boolean. -/
inductive Val where
  | vnum (q : ℚ)
  | vstr (s : String)
  | vbool (b : Bool)
deriving DecidableEq, Repr

/-- A row is an association list from column names to values. -/
abbrev Row := List (String × Val)

/-- A table (data frame) is a list of rows. -/
abbrev Frame := List Row

/-- Value of column `c` in row `r` (first binding wins). -/
def getV (r : Row) (c : String) : Option Val :=
  match r with
  | [] => none
  | (k, v) :: rest => if k = c then some v else getV rest c

/-- Numeric value of column `c` in row `r`, if present and numeric. -/
def getNum (r : Row) (c : String) : Option ℚ :=
  match getV r c with
  | some (.vnum q) => some q
  | _ => none

/-- String value of column `c` in row `r`, if present and a string. -/
def getStr (r : Row) (c : String) : Option String :=
  match getV r c with
  | some (.vstr s) => some s
  | _ => none

/-- Boolean value of column `c` in row `r`, if present and boolean. -/
def getBool (r : Row) (c : String) : Option Bool :=
  match getV r c with
  | some (.vbool b) => some b
  | _ => none

/-- Errors of the pipeline: a schema error naming the missing columns, or a
requested group label absent from the grouping column. -/
inductive HypError where
  | missingColumns (cols : List String)
  | missingCategory (col : String) (label : String)
deriving DecidableEq, Repr

/-- Modelled from the spec: the validity predicate of the Data Preparer
(`prepare_hypothesis_data` in the missing `scripts/hypothesis.py`): a row is
kept when premium > 0, claim amount ≥ 0 and gender is one of the two
accepted values. -/
def validRow (r : Row) : Bool :=
  match getNum r "TotalPremium", getNum r "TotalClaims", getStr r "Gender" with
  | some p, some c, some g =>
      decide (0 < p) && decide (0 ≤ c) && (g == "Male" || g == "Female")
  | _, _, _ => false

/-- Remove any previous bindings of the two derived columns from a row. -/
def stripDerived (r : Row) : Row :=
  r.filter (fun kv => decide (kv.1 ≠ "has_claim" ∧ kv.1 ≠ "margin"))

/-- Modelled from the spec: add the two derived columns `has_claim`
(claim amount > 0) and `margin` (premium − claim amount) to a row. -/
def addDerived (r : Row) : Row :=
  match getNum r "TotalPremium", getNum r "TotalClaims" with
  | some p, some c =>
      ("has_claim", Val.vbool (decide (0 < c))) ::
      ("margin", Val.vnum (p - c)) :: stripDerived r
  | _, _ => r

/-- Whether every row of the table carries column `c`. -/
def hasCol (t : Frame) (c : String) : Bool :=
  t.all (fun r => (getV r c).isSome)

/-- Columns of `cs` that are missing from the table. -/
def missingColsIn (cs : List String) (t : Frame) : List String :=
  cs.filter (fun c => !(hasCol t c))

/-- Modelled from the spec: the columns the Data Preparer requires —
premium, claim, gender, and the grouping columns used later. -/
def requiredCols : List String :=
  ["TotalPremium", "TotalClaims", "Gender", "Province", "MainCrestaZone"]

/-- Required columns missing from the table. -/
def missingCols (t : Frame) : List String :=
  missingColsIn requiredCols t

/-- The successful-path body of the Data Preparer: keep valid rows and add
the two derived columns. -/
def prepOut (t : Frame) : Frame :=
  (t.filter validRow).map addDerived

/-- Modelled from the spec: the Data Preparer of the missing
`scripts/hypothesis.py`.  It fails fast with a schema error naming the
missing required columns; otherwise it drops rows failing the validity
predicates and adds `has_claim` and `margin`. -/
def prepare_hypothesis_data (t : Frame) : Except HypError Frame :=
  match missingCols t with
  | c :: cs => .error (.missingColumns (c :: cs))
  | [] => .ok (prepOut t)

/-- Modelled from the spec: abstract interface of the external statistics
library (not code of this repository).  `chi2p` maps a chi-squared statistic
and degrees of freedom to a p-value; `tp` maps the two samples of a
two-sample t-test to a p-value.  The contract records only what the spec
relies on: p-values lie in [0,1] (for the t-test, when both samples have at
least 2 observations; for the chi-squared, when the statistic is
nonnegative). -/
structure PModel where
  chi2p : ℚ → ℕ → ℚ
  tp : List ℚ → List ℚ → ℚ
  chi2p_mem : ∀ s d, 0 ≤ s → 0 ≤ chi2p s d ∧ chi2p s d ≤ 1
  tp_mem : ∀ xs ys, 2 ≤ xs.length → 2 ≤ ys.length → 0 ≤ tp xs ys ∧ tp xs ys ≤ 1

/-- Rows of the table whose grouping column `col` holds the string `v`. -/
def groupRows (t : Frame) (col v : String) : Frame :=
  t.filter (fun r => decide (getV r col = some (Val.vstr v)))

/-- Claim amounts of the rows of group `v`, restricted to rows with
`has_claim == true` (the claims-only subset used by severity tests). -/
def claimVals (t : Frame) (col v : String) : List ℚ :=
  (groupRows t col v).filterMap (fun r =>
    match getBool r "has_claim", getNum r "TotalClaims" with
    | some true, some q => some q
    | _, _ => none)

/-- Margin values of all rows of group `v`. -/
def marginVals (t : Frame) (col v : String) : List ℚ :=
  (groupRows t col v).filterMap (fun r => getNum r "margin")

/-- The `has_claim` column of group `v`, as a list of category values. -/
def hasClaimVals (t : Frame) (col v : String) : List Val :=
  (groupRows t col v).filterMap (fun r => getV r "has_claim")

/-- Values of attribute column `attr` over the rows of group `v`. -/
def attrVals (t : Frame) (col v attr : String) : List Val :=
  (groupRows t col v).filterMap (fun r => getV r attr)

/-- Observed categories of a two-group contingency table. -/
def chi2Cats (ga gb : List Val) : List Val :=
  (ga ++ gb).dedup

/-- Pearson chi-squared statistic of the 2 × k contingency table whose rows
are the two groups and whose columns are the observed categories; expected
counts come from the margins. -/
def chi2Stat (ga gb : List Val) : ℚ :=
  let n : ℚ := ((ga.length + gb.length : ℕ) : ℚ)
  ((chi2Cats ga gb).map (fun c =>
    let ct : ℚ := ((ga.count c + gb.count c : ℕ) : ℚ)
    let eA : ℚ := (ga.length : ℚ) * ct / n
    let eB : ℚ := (gb.length : ℚ) * ct / n
    ((ga.count c : ℚ) - eA) ^ 2 / eA + ((gb.count c : ℚ) - eB) ^ 2 / eB)).sum

/-- Degrees of freedom of the 2 × k contingency table. -/
def chi2Dof (ga gb : List Val) : ℕ :=
  (chi2Cats ga gb).length - 1

/-- Modelled from the spec: p-value of the claim-frequency chi-squared test.
When the observed categories collapse to at most one, the degrees of freedom
are 0 and the p-value is exactly 1 (no variation possible → no association);
otherwise the statistic is handed to the library kernel. -/
def freqP (M : PModel) (ga gb : List Val) : ℚ :=
  if (chi2Cats ga gb).length ≤ 1 then 1
  else M.chi2p (chi2Stat ga gb) (chi2Dof ga gb)

/-- Modelled from the spec: raw p-value of a claim-severity t-test, computed
only over the claims-only subsets; `none` (undefined, skipped) when either
subset has fewer than 2 observations. -/
def sevP (M : PModel) (t : Frame) (col a b : String) : Option ℚ :=
  let xs := claimVals t col a
  let ys := claimVals t col b
  if 2 ≤ xs.length ∧ 2 ≤ ys.length then some (M.tp xs ys) else none

/-- Modelled from the spec: raw p-value of the margin t-test over all rows
of the two groups; `none` (skipped) on insufficient sample size. -/
def marginP (M : PModel) (t : Frame) (col a b : String) : Option ℚ :=
  let xs := marginVals t col a
  let ys := marginVals t col b
  if 2 ≤ xs.length ∧ 2 ≤ ys.length then some (M.tp xs ys) else none

/-- A hypothesis-test result record: test kind, metric, the two group
labels, raw p-value (undefined when skipped), adjusted p-value, and a flag
marking skipped (degenerate-sample) tests. -/
structure TestRec where
  test : String
  metric : String
  group_a : String
  group_b : String
  p_value : Option ℚ
  p_value_adjusted : Option ℚ
  skipped : Bool
deriving DecidableEq, Repr

/-- A claim-frequency chi-squared test record (never skipped). -/
def freqTest (M : PModel) (t : Frame) (col a b : String) : TestRec :=
  ⟨"Chi-Squared", "claim_frequency", a, b,
    some (freqP M (hasClaimVals t col a) (hasClaimVals t col b)), none, false⟩

/-- A claim-severity t-test record, flagged skipped when undefined. -/
def sevTest (M : PModel) (t : Frame) (col a b : String) : TestRec :=
  ⟨"T-Test", "claim_severity", a, b, sevP M t col a b, none,
    (sevP M t col a b).isNone⟩

/-- A margin t-test record, flagged skipped when undefined. -/
def marginTest (M : PModel) (t : Frame) (col a b : String) : TestRec :=
  ⟨"T-Test", "margin", a, b, marginP M t col a b, none,
    (marginP M t col a b).isNone⟩

/-- Modelled from the spec: the fixed battery of seven tests, in order. -/
def rawRecs (M : PModel) (t : Frame) : List TestRec :=
  [freqTest M t "Province" "Gauteng" "KwaZulu-Natal",
   sevTest M t "Province" "Gauteng" "KwaZulu-Natal",
   freqTest M t "MainCrestaZone" "High" "Low",
   sevTest M t "MainCrestaZone" "High" "Low",
   marginTest M t "MainCrestaZone" "High" "Low",
   freqTest M t "Gender" "Female" "Male",
   sevTest M t "Gender" "Female" "Male"]

/-- Benjamini–Hochberg adjusted p-value of `p` within the family `ps` of
`m` raw p-values, via the standard closed form of the step-up procedure:
the least value of m·q / rank(q) over family members q ≥ p, capped at 1,
where rank(q) counts the family members ≤ q. -/
def bhOne (m : ℕ) (ps : List ℚ) (p : ℚ) : ℚ :=
  min 1 (((ps.filter (fun q => decide (p ≤ q))).map
    (fun q => (m : ℚ) * q / ((ps.countP (fun l => decide (l ≤ q)) : ℕ) : ℚ))).foldr min 1)

/-- Benjamini–Hochberg step-up adjustment of a whole family of raw
p-values, in the family's order. -/
def bhAdjust (ps : List ℚ) : List ℚ :=
  ps.map (bhOne ps.length ps)

/-- Benjamini–Hochberg adjustment of an optional raw p-value column: the
family consists of the defined entries, skipped entries stay undefined. -/
def bhAdjustOpt (ps : List (Option ℚ)) : List (Option ℚ) :=
  ps.map (Option.map (bhOne (ps.filterMap id).length (ps.filterMap id)))

/-- Fill the `p_value_adjusted` column: the Benjamini–Hochberg correction
applied jointly across the full family of defined raw p-values. -/
def applyBH (recs : List TestRec) : List TestRec :=
  recs.map (fun r =>
    { r with p_value_adjusted :=
        r.p_value.map (bhOne (recs.filterMap TestRec.p_value).length
                             (recs.filterMap TestRec.p_value)) })

/-- Columns the Hypothesis Runner reads. -/
def runnerRequiredCols : List String :=
  ["TotalPremium", "TotalClaims", "Gender", "Province", "MainCrestaZone",
   "has_claim", "margin"]

/-- The three fixed group pairs of the battery. -/
def runnerPairs : List (String × String × String) :=
  [("Province", "Gauteng", "KwaZulu-Natal"),
   ("MainCrestaZone", "High", "Low"),
   ("Gender", "Female", "Male")]

/-- First requested group label absent from its grouping column, if any. -/
def missingLabel (t : Frame) : Option (String × String) :=
  runnerPairs.findSome? (fun pr =>
    if (groupRows t pr.1 pr.2.1).isEmpty then some (pr.1, pr.2.1)
    else if (groupRows t pr.1 pr.2.2).isEmpty then some (pr.1, pr.2.2)
    else none)

/-- Modelled from the spec: the Hypothesis Runner of the missing
`scripts/hypothesis.py`.  Schema errors and absent group labels abort the
run; otherwise the fixed battery of seven tests is computed in order and the
Benjamini–Hochberg correction is applied jointly across the raw p-values. -/
def run_all_hypothesis_tests (M : PModel) (t : Frame) :
    Except HypError (List TestRec) :=
  match missingColsIn runnerRequiredCols t with
  | c :: cs => .error (.missingColumns (c :: cs))
  | [] =>
    match missingLabel t with
    | some (col, lab) => .error (.missingCategory col lab)
    | none => .ok (applyBH (rawRecs M t))

/-- The fixed order of the seven records: (test kind, metric, group labels). -/
def expectedOrder : List (String × String × String × String) :=
  [("Chi-Squared", "claim_frequency", "Gauteng", "KwaZulu-Natal"),
   ("T-Test", "claim_severity", "Gauteng", "KwaZulu-Natal"),
   ("Chi-Squared", "claim_frequency", "High", "Low"),
   ("T-Test", "claim_severity", "High", "Low"),
   ("T-Test", "margin", "High", "Low"),
   ("Chi-Squared", "claim_frequency", "Female", "Male"),
   ("T-Test", "claim_severity", "Female", "Male")]

/-- Whether every value of a list is a string (categorical column). -/
def allStr (vs : List Val) : Bool :=
  vs.all (fun v => match v with | .vstr _ => true | _ => false)

/-- Whether every value of a list is numeric (numeric column). -/
def allNum (vs : List Val) : Bool :=
  vs.all (fun v => match v with | .vnum _ => true | _ => false)

/-- The numeric entries of a list of values. -/
def numVals (vs : List Val) : List ℚ :=
  vs.filterMap (fun v => match v with | .vnum q => some q | _ => none)

/-- Modelled from the spec: degeneracy of a two-group contingency table —
a zero-count cell, or the observed categories collapsing to at most one. -/
def chi2Degenerate (ga gb : List Val) : Bool :=
  decide ((chi2Cats ga gb).length ≤ 1) ||
  (chi2Cats ga gb).any (fun c => decide (ga.count c = 0) || decide (gb.count c = 0))

/-- Modelled from the spec: per-attribute test of the Equivalence Checker.
Categorical attributes get a chi-squared test of independence, skipped
(`none`) when the contingency table is degenerate; numeric attributes get a
two-sample t-test, skipped on insufficient sample size; attributes that are
neither (absent or of mixed type) are skipped. -/
def equivTest (M : PModel) (ga gb : List Val) : Option (String × ℚ) :=
  if allStr (ga ++ gb) ∧ ga ++ gb ≠ [] then
    if chi2Degenerate ga gb then none
    else some ("Chi-Squared", M.chi2p (chi2Stat ga gb) (chi2Dof ga gb))
  else if allNum (ga ++ gb) ∧ ga ++ gb ≠ [] then
    if 2 ≤ (numVals ga).length ∧ 2 ≤ (numVals gb).length then
      some ("T-Test", M.tp (numVals ga) (numVals gb))
    else none
  else none

/-- One record of the equivalence report: attribute, test kind, p-value. -/
structure EquivRec where
  column : String
  test : String
  p_value : ℚ
deriving DecidableEq, Repr

/-- The equivalence-report record for one attribute, if testable. -/
def equivRow (M : PModel) (t : Frame) (col a b attr : String) : Option EquivRec :=
  (equivTest M (attrVals t col a attr) (attrVals t col b attr)).map
    (fun pr => ⟨attr, pr.1, pr.2⟩)

/-- Modelled from the spec: the Equivalence Checker of the missing
`scripts/hypothesis.py`.  It fails with a clear error when a requested group
label is absent from the grouping column; otherwise it returns the
per-attribute report (in input order, only testable attributes) together
with the list of attributes skipped as degenerate, so skips are flagged
rather than silent. -/
def check_group_equivalence (M : PModel) (t : Frame) (col a b : String)
    (attrs : List String) : Except HypError (List EquivRec × List String) :=
  if (groupRows t col a).isEmpty then .error (.missingCategory col a)
  else if (groupRows t col b).isEmpty then .error (.missingCategory col b)
  else .ok (attrs.filterMap (equivRow M t col a b),
            attrs.filter (fun x => (equivRow M t col a b x).isNone))

/-- A sample raw row with the five base columns. -/
def sampleRow (prov zone gen : String) (prem claim : ℚ) : Row :=
  [("Province", Val.vstr prov), ("MainCrestaZone", Val.vstr zone),
   ("Gender", Val.vstr gen), ("TotalPremium", Val.vnum prem),
   ("TotalClaims", Val.vnum claim)]

/-- A sample table on which every one of the seven tests is computable:
each of the six group labels covers at least two claim rows. -/
def sampleFrame : Frame :=
  [sampleRow "Gauteng" "High" "Male" 100 10,
   sampleRow "Gauteng" "Low" "Female" 100 20,
   sampleRow "KwaZulu-Natal" "High" "Female" 100 30,
   sampleRow "KwaZulu-Natal" "Low" "Male" 100 40]

/-- A sample table whose claim amounts are all zero. -/
def sampleFrameZero : Frame :=
  [sampleRow "Gauteng" "High" "Male" 100 0,
   sampleRow "Gauteng" "Low" "Female" 100 0,
   sampleRow "KwaZulu-Natal" "High" "Female" 100 0,
   sampleRow "KwaZulu-Natal" "Low" "Male" 100 0]

/-- A concrete statistics model used to exercise the theorems on concrete
inputs: both kernels return the constant 1/2. -/
def constModel : PModel where
  chi2p := fun _ _ => 1 / 2
  tp := fun _ _ => 1 / 2
  chi2p_mem := by intro s d _; norm_num
  tp_mem := by intro xs ys _ _; norm_num

/-- A table with a single empty row: every required column is missing. -/
def emptyRowFrame : Frame := [[]]

/-- A sample table that contains no "Gauteng" row. -/
def sampleFrameNoGauteng : Frame :=
  [sampleRow "WesternCape" "High" "Male" 100 10,
   sampleRow "WesternCape" "Low" "Female" 100 20,
   sampleRow "KwaZulu-Natal" "High" "Female" 100 30,
   sampleRow "KwaZulu-Natal" "Low" "Male" 100 40]

/-- Prepend a constant column to a row. -/
def addCol (c : String) (v : Val) (r : Row) : Row := (c, v) :: r

/-- The sample table extended with a constant `CoverType` column, whose
contingency table against any pair of groups collapses to one category. -/
def sampleFrameEq : Frame :=
  sampleFrame.map (addCol "CoverType" (Val.vstr "Comprehensive"))

theorem getV_cons (k : String) (v : Val) (r : Row) (c : String) :
    getV ((k, v) :: r) c = if k = c then some v else getV r c := rfl

theorem getV_cons_ne {k c : String} (v : Val) (r : Row) (h : k ≠ c) :
    getV ((k, v) :: r) c = getV r c := by
  rw [getV_cons, if_neg h]

theorem getV_filter (r : Row) (c : String) (p : String × Val → Bool)
    (h : ∀ v, p (c, v) = true) : getV (r.filter p) c = getV r c := by
  induction r with
  | nil => rfl
  | cons kv rest ih =>
    rcases kv with ⟨k, v⟩
    by_cases hk : k = c
    · subst hk
      rw [List.filter_cons, h v]
      simp [getV_cons]
    · rw [List.filter_cons]
      cases hp : p (k, v) with
      | true => simpa [getV_cons_ne v _ hk] using ih
      | false => rw [getV_cons_ne v rest hk]; simpa using ih

theorem getV_stripDerived (r : Row) (c : String)
    (h1 : c ≠ "has_claim") (h2 : c ≠ "margin") :
    getV (stripDerived r) c = getV r c := by
  apply getV_filter
  intro v
  simp [h1, h2]

theorem getV_addDerived (r : Row) (c : String)
    (h1 : c ≠ "has_claim") (h2 : c ≠ "margin") :
    getV (addDerived r) c = getV r c := by
  unfold addDerived
  rcases hp : getNum r "TotalPremium" with _ | p <;>
    rcases hc : getNum r "TotalClaims" with _ | cl <;> simp only []
  rw [getV_cons_ne _ _ (Ne.symm h1), getV_cons_ne _ _ (Ne.symm h2)]
  exact getV_stripDerived r c h1 h2

theorem getNum_addDerived (r : Row) (c : String)
    (h1 : c ≠ "has_claim") (h2 : c ≠ "margin") :
    getNum (addDerived r) c = getNum r c := by
  unfold getNum
  rw [getV_addDerived r c h1 h2]

theorem getStr_addDerived (r : Row) (c : String)
    (h1 : c ≠ "has_claim") (h2 : c ≠ "margin") :
    getStr (addDerived r) c = getStr r c := by
  unfold getStr
  rw [getV_addDerived r c h1 h2]

theorem validRow_iff (r : Row) : validRow r = true ↔
    ∃ p c g, getNum r "TotalPremium" = some p ∧ getNum r "TotalClaims" = some c ∧
      getStr r "Gender" = some g ∧ 0 < p ∧ 0 ≤ c ∧ (g = "Male" ∨ g = "Female") := by
  unfold validRow
  rcases getNum r "TotalPremium" with _ | p <;>
    rcases getNum r "TotalClaims" with _ | c <;>
    rcases getStr r "Gender" with _ | g <;>
    simp [and_assoc, beq_iff_eq]

theorem prepare_ok_iff {t u : Frame} :
    prepare_hypothesis_data t = .ok u ↔ missingCols t = [] ∧ u = prepOut t := by
  unfold prepare_hypothesis_data
  cases hm : missingCols t with
  | nil => simp [eq_comm]
  | cons c cs => simp

theorem run_ok {M : PModel} {t : Frame} {recs : List TestRec}
    (h : run_all_hypothesis_tests M t = .ok recs) :
    recs = applyBH (rawRecs M t) := by
  unfold run_all_hypothesis_tests at h
  cases hm : missingColsIn runnerRequiredCols t with
  | cons c cs => rw [hm] at h; cases h
  | nil =>
    rw [hm] at h
    cases hl : missingLabel t with
    | some pr => rw [hl] at h; cases pr; cases h
    | none => rw [hl] at h; cases h; rfl

theorem mem_prepOut {t : Frame} {r : Row} (h : r ∈ prepOut t) :
    ∃ r0, r0 ∈ t ∧ validRow r0 = true ∧ r = addDerived r0 := by
  unfold prepOut at h
  rcases List.mem_map.mp h with ⟨r0, hr0, hmap⟩
  rcases List.mem_filter.mp hr0 with ⟨hmem, hval⟩
  exact ⟨r0, hmem, hval, hmap.symm⟩

/-- C7: when a required column (premium, claim amount, gender, or a grouping
column used by a later test) is absent from the input table, the Data
Preparer fails fast with a schema error naming exactly the missing columns
and produces no partial result; likewise the Hypothesis Runner aborts with a
schema error naming the columns it misses. -/
theorem prepare_missing_columns (t : Frame) :
    (missingCols t ≠ [] →
      prepare_hypothesis_data t = .error (.missingColumns (missingCols t))) ∧
    (∀ M : PModel, missingColsIn runnerRequiredCols t ≠ [] →
      run_all_hypothesis_tests M t =
        .error (.missingColumns (missingColsIn runnerRequiredCols t))) := by
  constructor
  · intro h
    unfold prepare_hypothesis_data
    cases hm : missingCols t with
    | nil => exact absurd hm h
    | cons c cs => rfl
  · intro M h
    unfold run_all_hypothesis_tests
    cases hm : missingColsIn runnerRequiredCols t with
    | nil => exact absurd hm h
    | cons c cs => rfl

theorem prepare_missing_columns_witness :
    missingCols emptyRowFrame ≠ [] ∧
    prepare_hypothesis_data emptyRowFrame =
      .error (.missingColumns (missingCols emptyRowFrame)) ∧
    run_all_hypothesis_tests constModel emptyRowFrame =
      .error (.missingColumns (missingColsIn runnerRequiredCols emptyRowFrame)) :=
  ⟨by decide, (prepare_missing_columns emptyRowFrame).1 (by decide),
    (prepare_missing_columns emptyRowFrame).2 constModel (by decide)⟩

/-- C8: when a requested group label does not occur in the grouping column,
the Equivalence Checker fails with an error identifying the grouping column
and the missing category (for either label), and so does the Hypothesis
Runner for its fixed labels (shown for "Gauteng"), rather than returning an
empty or misleading result. -/
theorem missing_category_error (M : PModel) (t : Frame) (col a b : String)
    (attrs : List String) :
    ((groupRows t col a).isEmpty = true →
      check_group_equivalence M t col a b attrs = .error (.missingCategory col a)) ∧
    ((groupRows t col a).isEmpty = false → (groupRows t col b).isEmpty = true →
      check_group_equivalence M t col a b attrs = .error (.missingCategory col b)) ∧
    (missingColsIn runnerRequiredCols t = [] →
      (groupRows t "Province" "Gauteng").isEmpty = true →
      run_all_hypothesis_tests M t = .error (.missingCategory "Province" "Gauteng")) := by
  refine ⟨fun h => ?_, fun h1 h2 => ?_, fun hs hg => ?_⟩
  · simp [check_group_equivalence, h]
  · simp [check_group_equivalence, h1, h2]
  · unfold run_all_hypothesis_tests
    rw [hs]
    have hl : missingLabel t = some ("Province", "Gauteng") := by
      simp [missingLabel, runnerPairs, List.findSome?, hg]
    rw [hl]

theorem missing_category_error_witness :
    (groupRows sampleFrameNoGauteng "Province" "Gauteng").isEmpty = true ∧
    check_group_equivalence constModel sampleFrameNoGauteng "Province" "Gauteng"
      "KwaZulu-Natal" ["Gender"] = .error (.missingCategory "Province" "Gauteng") ∧
    run_all_hypothesis_tests constModel (prepOut sampleFrameNoGauteng) =
      .error (.missingCategory "Province" "Gauteng") :=
  ⟨by decide,
   (missing_category_error constModel sampleFrameNoGauteng "Province" "Gauteng"
      "KwaZulu-Natal" ["Gender"]).1 (by decide),
   (missing_category_error constModel (prepOut sampleFrameNoGauteng) "Province"
      "Gauteng" "KwaZulu-Natal" []).2.2 (by decide) (by decide)⟩

theorem addDerived_eq_of (r : Row) {p c : ℚ}
    (hp : getNum r "TotalPremium" = some p) (hc : getNum r "TotalClaims" = some c) :
    addDerived r = ("has_claim", Val.vbool (decide (0 < c))) ::
      ("margin", Val.vnum (p - c)) :: stripDerived r := by
  unfold addDerived
  rw [hp, hc]

theorem prepOut_row_fields (t : Frame) :
    ∀ r ∈ prepOut t, ∃ p c g,
      getNum r "TotalPremium" = some p ∧ getNum r "TotalClaims" = some c ∧
      getStr r "Gender" = some g ∧ 0 < p ∧ 0 ≤ c ∧ (g = "Male" ∨ g = "Female") ∧
      getNum r "margin" = some (p - c) ∧
      getBool r "has_claim" = some (decide (0 < c)) := by
  intro r hr
  obtain ⟨r0, -, hval, hadd⟩ := mem_prepOut hr
  obtain ⟨p, c, g, hp, hc, hg, h0p, h0c, hgen⟩ := (validRow_iff r0).mp hval
  subst hadd
  refine ⟨p, c, g, ?_, ?_, ?_, h0p, h0c, hgen, ?_, ?_⟩
  · rw [getNum_addDerived r0 _ (by decide) (by decide)]; exact hp
  · rw [getNum_addDerived r0 _ (by decide) (by decide)]; exact hc
  · rw [getStr_addDerived r0 _ (by decide) (by decide)]; exact hg
  · rw [addDerived_eq_of r0 hp hc]
    simp [getNum, getV]
  · rw [addDerived_eq_of r0 hp hc]
    simp [getBool, getV]

/-- C4: every row of the Data Preparer's output has a positive premium, a
nonnegative claim amount, gender "Male" or "Female", a margin equal to
premium minus claim amount, and `has_claim` holding exactly when the claim
amount is positive. -/
theorem prepare_row_invariant (t u : Frame) (h : prepare_hypothesis_data t = .ok u) :
    ∀ r ∈ u, ∃ p c g,
      getNum r "TotalPremium" = some p ∧ getNum r "TotalClaims" = some c ∧
      getStr r "Gender" = some g ∧ 0 < p ∧ 0 ≤ c ∧ (g = "Male" ∨ g = "Female") ∧
      getNum r "margin" = some (p - c) ∧
      getBool r "has_claim" = some (decide (0 < c)) := by
  obtain ⟨-, hu⟩ := prepare_ok_iff.mp h
  subst hu
  exact prepOut_row_fields t

theorem prepare_row_invariant_witness :
    prepare_hypothesis_data sampleFrame = .ok (prepOut sampleFrame) ∧
    ∀ r ∈ prepOut sampleFrame, ∃ p c g,
      getNum r "TotalPremium" = some p ∧ getNum r "TotalClaims" = some c ∧
      getStr r "Gender" = some g ∧ 0 < p ∧ 0 ≤ c ∧ (g = "Male" ∨ g = "Female") ∧
      getNum r "margin" = some (p - c) ∧
      getBool r "has_claim" = some (decide (0 < c)) :=
  ⟨rfl, prepare_row_invariant sampleFrame (prepOut sampleFrame) rfl⟩

theorem validRow_addDerived (r : Row) : validRow (addDerived r) = validRow r := by
  unfold validRow
  rw [getNum_addDerived r _ (by decide) (by decide),
      getNum_addDerived r _ (by decide) (by decide),
      getStr_addDerived r _ (by decide) (by decide)]

theorem filter_idem {α : Type} (p : α → Bool) (l : List α) :
    (l.filter p).filter p = l.filter p := by
  induction l with
  | nil => rfl
  | cons a as ih => cases hp : p a <;> simp [List.filter_cons, hp, ih]

theorem addDerived_idem (r : Row) (h : validRow r = true) :
    addDerived (addDerived r) = addDerived r := by
  obtain ⟨p, c, g, hp, hc, hg, -, -, -⟩ := (validRow_iff r).mp h
  have h1 : getNum (addDerived r) "TotalPremium" = some p := by
    rw [getNum_addDerived r _ (by decide) (by decide)]; exact hp
  have h2 : getNum (addDerived r) "TotalClaims" = some c := by
    rw [getNum_addDerived r _ (by decide) (by decide)]; exact hc
  have hstrip : stripDerived (addDerived r) = stripDerived r := by
    rw [addDerived_eq_of _ hp hc]
    simp [stripDerived, List.filter_cons, filter_idem]
  rw [addDerived_eq_of _ h1 h2, hstrip, addDerived_eq_of _ hp hc]

/-- C5: the Data Preparer is idempotent — applied to its own successful
output it succeeds again and returns that output unchanged. -/
theorem prepare_idempotent (t u : Frame) (h : prepare_hypothesis_data t = .ok u) :
    prepare_hypothesis_data u = .ok u := by
  obtain ⟨hm, hu⟩ := prepare_ok_iff.mp h
  subst hu
  apply prepare_ok_iff.mpr
  have hreq : ∀ c ∈ requiredCols, c ≠ "has_claim" ∧ c ≠ "margin" := by decide
  have hcol : ∀ c ∈ requiredCols, hasCol t c = true := by
    intro c hc
    have h' := List.filter_eq_nil_iff.mp hm c hc
    simpa using h'
  have hcolp : ∀ c ∈ requiredCols, hasCol (prepOut t) c = true := by
    intro c hc
    rw [hasCol, List.all_eq_true]
    intro r hr
    obtain ⟨r0, hr0, -, hadd⟩ := mem_prepOut hr
    subst hadd
    rw [getV_addDerived r0 c (hreq c hc).1 (hreq c hc).2]
    exact List.all_eq_true.mp (hcol c hc) r0 hr0
  constructor
  · apply List.filter_eq_nil_iff.mpr
    intro c hc
    simp [hcolp c hc]
  · have hfil : (prepOut t).filter validRow = prepOut t := by
      apply List.filter_eq_self.mpr
      intro r hr
      obtain ⟨r0, -, hval, hadd⟩ := mem_prepOut hr
      subst hadd
      rw [validRow_addDerived]
      exact hval
    have e1 : prepOut (prepOut t) = ((prepOut t).filter validRow).map addDerived := rfl
    rw [e1, hfil]
    symm
    show ((t.filter validRow).map addDerived).map addDerived = (t.filter validRow).map addDerived
    rw [List.map_map]
    apply List.map_congr_left
    intro r0 hr0
    have hval := (List.mem_filter.mp hr0).2
    simpa [Function.comp] using addDerived_idem r0 hval

theorem prepare_idempotent_witness :
    prepare_hypothesis_data sampleFrame = .ok (prepOut sampleFrame) ∧
    prepare_hypothesis_data (prepOut sampleFrame) = .ok (prepOut sampleFrame) :=
  ⟨rfl, prepare_idempotent sampleFrame (prepOut sampleFrame) rfl⟩

theorem foldr_min_le_one (l : List ℚ) : l.foldr min 1 ≤ 1 := by
  induction l with
  | nil => exact le_refl 1
  | cons a as ih => exact le_trans (min_le_right a _) ih

theorem foldr_min_le_mem {x : ℚ} {l : List ℚ} (h : x ∈ l) : l.foldr min 1 ≤ x := by
  induction l with
  | nil => cases h
  | cons a as ih =>
    rcases List.mem_cons.mp h with rfl | h2
    · exact min_le_left _ _
    · exact le_trans (min_le_right a _) (ih h2)

theorem le_foldr_min {c : ℚ} {l : List ℚ} (h1 : ∀ x ∈ l, c ≤ x) (h2 : c ≤ 1) :
    c ≤ l.foldr min 1 := by
  induction l with
  | nil => exact h2
  | cons a as ih =>
    exact le_min (h1 a (List.mem_cons_self a as))
      (ih (fun x hx => h1 x (List.mem_cons_of_mem a hx)))

theorem foldr_min_subset {l1 l2 : List ℚ} (h : ∀ x ∈ l2, x ∈ l1) :
    l1.foldr min 1 ≤ l2.foldr min 1 := by
  induction l2 with
  | nil => exact foldr_min_le_one l1
  | cons a as ih =>
    exact le_min (foldr_min_le_mem (h a (List.mem_cons_self a as)))
      (ih (fun x hx => h x (List.mem_cons_of_mem a hx)))

theorem bhOne_le_one (m : ℕ) (ps : List ℚ) (p : ℚ) : bhOne m ps p ≤ 1 :=
  min_le_left 1 _

theorem bhOne_nonneg (m : ℕ) (ps : List ℚ) (p : ℚ) (h : ∀ q ∈ ps, 0 ≤ q) :
    0 ≤ bhOne m ps p := by
  apply le_min (by norm_num)
  apply le_foldr_min _ (by norm_num)
  intro x hx
  rcases List.mem_map.mp hx with ⟨q, hq, rfl⟩
  have hq0 : 0 ≤ q := h q (List.mem_filter.mp hq).1
  exact div_nonneg (mul_nonneg (Nat.cast_nonneg m) hq0) (Nat.cast_nonneg _)

theorem bhOne_mono (m : ℕ) (ps : List ℚ) {p q : ℚ} (hpq : p ≤ q) :
    bhOne m ps p ≤ bhOne m ps q := by
  apply min_le_min (le_refl 1)
  apply foldr_min_subset
  intro x hx
  rcases List.mem_map.mp hx with ⟨y, hy, rfl⟩
  obtain ⟨hyps, hle⟩ := List.mem_filter.mp hy
  refine List.mem_map.mpr ⟨y, List.mem_filter.mpr ⟨hyps, ?_⟩, rfl⟩
  have : q ≤ y := of_decide_eq_true hle
  exact decide_eq_true (le_trans hpq this)

theorem chi2Stat_nonneg (ga gb : List Val) : 0 ≤ chi2Stat ga gb := by
  unfold chi2Stat
  apply List.sum_nonneg
  intro x hx
  rcases List.mem_map.mp hx with ⟨c, -, rfl⟩
  dsimp only
  have e1 : (0 : ℚ) ≤ (ga.length : ℚ) * ((ga.count c + gb.count c : ℕ) : ℚ) /
      ((ga.length + gb.length : ℕ) : ℚ) := by positivity
  have e2 : (0 : ℚ) ≤ (gb.length : ℚ) * ((ga.count c + gb.count c : ℕ) : ℚ) /
      ((ga.length + gb.length : ℕ) : ℚ) := by positivity
  exact add_nonneg (div_nonneg (sq_nonneg _) e1) (div_nonneg (sq_nonneg _) e2)

theorem freqP_mem (M : PModel) (ga gb : List Val) :
    0 ≤ freqP M ga gb ∧ freqP M ga gb ≤ 1 := by
  unfold freqP
  split
  · norm_num
  · exact M.chi2p_mem _ _ (chi2Stat_nonneg ga gb)

theorem sevP_eq (M : PModel) (t : Frame) (col a b : String) :
    sevP M t col a b =
      if 2 ≤ (claimVals t col a).length ∧ 2 ≤ (claimVals t col b).length
      then some (M.tp (claimVals t col a) (claimVals t col b)) else none := rfl

theorem marginP_eq (M : PModel) (t : Frame) (col a b : String) :
    marginP M t col a b =
      if 2 ≤ (marginVals t col a).length ∧ 2 ≤ (marginVals t col b).length
      then some (M.tp (marginVals t col a) (marginVals t col b)) else none := rfl

theorem sevP_mem (M : PModel) (t : Frame) (col a b : String) {p : ℚ}
    (h : sevP M t col a b = some p) : 0 ≤ p ∧ p ≤ 1 := by
  rw [sevP_eq] at h
  split at h
  · rename_i hcond
    cases h
    exact M.tp_mem _ _ hcond.1 hcond.2
  · cases h

theorem marginP_mem (M : PModel) (t : Frame) (col a b : String) {p : ℚ}
    (h : marginP M t col a b = some p) : 0 ≤ p ∧ p ≤ 1 := by
  rw [marginP_eq] at h
  split at h
  · rename_i hcond
    cases h
    exact M.tp_mem _ _ hcond.1 hcond.2
  · cases h

theorem rawRecs_p_bounds (M : PModel) (t : Frame) :
    ∀ r ∈ rawRecs M t, ∀ p : ℚ, r.p_value = some p → 0 ≤ p ∧ p ≤ 1 := by
  intro r hr p hp
  simp only [rawRecs, List.mem_cons, List.not_mem_nil, or_false] at hr
  rcases hr with rfl | rfl | rfl | rfl | rfl | rfl | rfl
  · exact (Option.some_inj.mp hp) ▸ freqP_mem M _ _
  · exact sevP_mem M t _ _ _ hp
  · exact (Option.some_inj.mp hp) ▸ freqP_mem M _ _
  · exact sevP_mem M t _ _ _ hp
  · exact marginP_mem M t _ _ _ hp
  · exact (Option.some_inj.mp hp) ▸ freqP_mem M _ _
  · exact sevP_mem M t _ _ _ hp

theorem sevTest_not_skipped (M : PModel) (t : Frame) (col a b : String)
    (hs : (sevTest M t col a b).skipped = false) :
    ∃ p : ℚ, (sevTest M t col a b).p_value = some p := by
  have h1 : (sevP M t col a b).isNone = false := hs
  rcases ho : sevP M t col a b with _ | p
  · rw [ho] at h1; simp at h1
  · exact ⟨p, ho⟩

theorem marginTest_not_skipped (M : PModel) (t : Frame) (col a b : String)
    (hs : (marginTest M t col a b).skipped = false) :
    ∃ p : ℚ, (marginTest M t col a b).p_value = some p := by
  have h1 : (marginP M t col a b).isNone = false := hs
  rcases ho : marginP M t col a b with _ | p
  · rw [ho] at h1; simp at h1
  · exact ⟨p, ho⟩

theorem rawRecs_not_skipped (M : PModel) (t : Frame) :
    ∀ r ∈ rawRecs M t, r.skipped = false → ∃ p : ℚ, r.p_value = some p := by
  intro r hr hs
  simp only [rawRecs, List.mem_cons, List.not_mem_nil, or_false] at hr
  rcases hr with rfl | rfl | rfl | rfl | rfl | rfl | rfl
  · exact ⟨_, rfl⟩
  · exact sevTest_not_skipped M t _ _ _ hs
  · exact ⟨_, rfl⟩
  · exact sevTest_not_skipped M t _ _ _ hs
  · exact marginTest_not_skipped M t _ _ _ hs
  · exact ⟨_, rfl⟩
  · exact sevTest_not_skipped M t _ _ _ hs

/-- C1: on a table where all seven tests are computable (no record is
flagged skipped), the Hypothesis Runner returns exactly 7 records in the
fixed order — province × frequency, province × severity, risk-zone ×
frequency, risk-zone × severity, risk-zone × margin, gender × frequency,
gender × severity — each carrying a raw p-value in [0,1] and an adjusted
p-value in [0,1]. -/
theorem run_seven_records (M : PModel) (t : Frame) (recs : List TestRec)
    (h : run_all_hypothesis_tests M t = .ok recs)
    (hns : ∀ r ∈ recs, r.skipped = false) :
    recs.length = 7 ∧
    recs.map (fun r => (r.test, r.metric, r.group_a, r.group_b)) = expectedOrder ∧
    ∀ r ∈ recs, ∃ p q : ℚ, r.p_value = some p ∧ r.p_value_adjusted = some q ∧
      0 ≤ p ∧ p ≤ 1 ∧ 0 ≤ q ∧ q ≤ 1 := by
  have hrecs := run_ok h
  subst hrecs
  refine ⟨rfl, rfl, ?_⟩
  intro r hr
  rcases List.mem_map.mp hr with ⟨r0, hr0, rfl⟩
  have hskip : r0.skipped = false := by
    have h2 := hns _ hr
    simpa using h2
  obtain ⟨p, hp⟩ := rawRecs_not_skipped M t r0 hr0 hskip
  have hbounds := rawRecs_p_bounds M t r0 hr0 p hp
  have hpsmem : ∀ q ∈ (rawRecs M t).filterMap TestRec.p_value, 0 ≤ q := by
    intro q hq
    rcases List.mem_filterMap.mp hq with ⟨s, hs, hsp⟩
    exact (rawRecs_p_bounds M t s hs q hsp).1
  refine ⟨p, bhOne ((rawRecs M t).filterMap TestRec.p_value).length
      ((rawRecs M t).filterMap TestRec.p_value) p, ?_, ?_, hbounds.1, hbounds.2,
      bhOne_nonneg _ _ _ hpsmem, bhOne_le_one _ _ _⟩
  · simpa using hp
  · show r0.p_value.map _ = _
    rw [hp]
    rfl

theorem run_seven_records_witness :
    run_all_hypothesis_tests constModel (prepOut sampleFrame) =
      .ok (applyBH (rawRecs constModel (prepOut sampleFrame))) ∧
    (∀ r ∈ applyBH (rawRecs constModel (prepOut sampleFrame)), r.skipped = false) ∧
    ((applyBH (rawRecs constModel (prepOut sampleFrame))).length = 7 ∧
      (applyBH (rawRecs constModel (prepOut sampleFrame))).map
        (fun r => (r.test, r.metric, r.group_a, r.group_b)) = expectedOrder ∧
      ∀ r ∈ applyBH (rawRecs constModel (prepOut sampleFrame)), ∃ p q : ℚ,
        r.p_value = some p ∧ r.p_value_adjusted = some q ∧
        0 ≤ p ∧ p ≤ 1 ∧ 0 ≤ q ∧ q ≤ 1) :=
  ⟨rfl, by decide,
    run_seven_records constModel (prepOut sampleFrame) _ rfl (by decide)⟩

/-- C2: the adjusted column returned by the Hypothesis Runner equals the
Benjamini–Hochberg step-up correction applied jointly across the full family
of raw p-values (not per metric or per pair), and the correction is
monotone with respect to the rank order of the raw p-values: a record with
a smaller raw p-value never gets a larger adjusted p-value, so the adjusted
p-values sorted by raw rank are non-decreasing. -/
theorem run_bh_adjusted (M : PModel) (t : Frame) (recs : List TestRec)
    (h : run_all_hypothesis_tests M t = .ok recs) :
    recs.map (fun r => r.p_value_adjusted) =
      bhAdjustOpt (recs.map (fun r => r.p_value)) ∧
    ∀ r ∈ recs, ∀ s ∈ recs, ∀ p q pa qa : ℚ, r.p_value = some p →
      s.p_value = some q → r.p_value_adjusted = some pa →
      s.p_value_adjusted = some qa → p ≤ q → pa ≤ qa := by
  have hrecs := run_ok h
  subst hrecs
  constructor
  · simp only [applyBH, bhAdjustOpt, List.map_map, List.filterMap_map]
    rfl
  · intro r hr s hs p q pa qa hp hq hpa hqa hpq
    rcases List.mem_map.mp hr with ⟨r0, -, rfl⟩
    rcases List.mem_map.mp hs with ⟨s0, -, rfl⟩
    have hp0 : r0.p_value = some p := hp
    have hq0 : s0.p_value = some q := hq
    have hpa0 : r0.p_value.map (bhOne ((rawRecs M t).filterMap TestRec.p_value).length
        ((rawRecs M t).filterMap TestRec.p_value)) = some pa := hpa
    have hqa0 : s0.p_value.map (bhOne ((rawRecs M t).filterMap TestRec.p_value).length
        ((rawRecs M t).filterMap TestRec.p_value)) = some qa := hqa
    rw [hp0] at hpa0
    rw [hq0] at hqa0
    have epa : pa = bhOne ((rawRecs M t).filterMap TestRec.p_value).length
        ((rawRecs M t).filterMap TestRec.p_value) p := (Option.some_inj.mp hpa0).symm
    have eqa : qa = bhOne ((rawRecs M t).filterMap TestRec.p_value).length
        ((rawRecs M t).filterMap TestRec.p_value) q := (Option.some_inj.mp hqa0).symm
    rw [epa, eqa]
    exact bhOne_mono _ _ hpq

theorem run_bh_adjusted_witness :
    run_all_hypothesis_tests constModel (prepOut sampleFrame) =
      .ok (applyBH (rawRecs constModel (prepOut sampleFrame))) ∧
    (applyBH (rawRecs constModel (prepOut sampleFrame))).map
        (fun r => r.p_value_adjusted) =
      bhAdjustOpt ((applyBH (rawRecs constModel (prepOut sampleFrame))).map
        (fun r => r.p_value)) :=
  ⟨rfl, (run_bh_adjusted constModel (prepOut sampleFrame) _ rfl).1⟩

/-- C3: in every successful run, each of the three claim-severity records
(indices 1, 3, 6 of the battery) is a t-test computed only over the
claims-only subsets (`has_claim == true`) of its two groups; whenever either
subset has fewer than 2 observations the test is skipped, its raw and
adjusted p-values are reported undefined (`none`, not zero or any fabricated
value), and the record is flagged skipped. -/
theorem severity_tests (M : PModel) (t : Frame) (recs : List TestRec)
    (h : run_all_hypothesis_tests M t = .ok recs) :
    ∀ i col a b, (i, col, a, b) ∈
      [(1, "Province", "Gauteng", "KwaZulu-Natal"),
       (3, "MainCrestaZone", "High", "Low"),
       (6, "Gender", "Female", "Male")] →
    ∃ r, recs[i]? = some r ∧ r.test = "T-Test" ∧ r.metric = "claim_severity" ∧
      r.group_a = a ∧ r.group_b = b ∧
      ((2 ≤ (claimVals t col a).length ∧ 2 ≤ (claimVals t col b).length) →
        r.p_value = some (M.tp (claimVals t col a) (claimVals t col b)) ∧
        r.skipped = false) ∧
      (((claimVals t col a).length < 2 ∨ (claimVals t col b).length < 2) →
        r.p_value = none ∧ r.p_value_adjusted = none ∧ r.skipped = true) := by
  have hrecs := run_ok h
  subst hrecs
  intro i col a b hmem
  simp only [List.mem_cons, List.not_mem_nil, or_false, Prod.mk.injEq] at hmem
  rcases hmem with ⟨rfl, rfl, rfl, rfl⟩ | ⟨rfl, rfl, rfl, rfl⟩ | ⟨rfl, rfl, rfl, rfl⟩ <;>
  · refine ⟨_, rfl, rfl, rfl, rfl, rfl, fun hcond => ?_, fun hlt => ?_⟩
    · constructor
      · show sevP M t _ _ _ = _
        rw [sevP_eq, if_pos hcond]
      · show (sevP M t _ _ _).isNone = false
        rw [sevP_eq, if_pos hcond]
        rfl
    · refine ⟨?_, ?_, ?_⟩
      · show sevP M t _ _ _ = none
        rw [sevP_eq, if_neg (by rcases hlt with h1 | h1 <;> omega)]
      · show (sevP M t _ _ _).map _ = none
        rw [sevP_eq, if_neg (by rcases hlt with h1 | h1 <;> omega)]
        rfl
      · show (sevP M t _ _ _).isNone = true
        rw [sevP_eq, if_neg (by rcases hlt with h1 | h1 <;> omega)]
        rfl

theorem severity_tests_witness :
    run_all_hypothesis_tests constModel (prepOut sampleFrame) =
      .ok (applyBH (rawRecs constModel (prepOut sampleFrame))) ∧
    (1, "Province", "Gauteng", "KwaZulu-Natal") ∈
      [((1 : ℕ), "Province", "Gauteng", "KwaZulu-Natal"),
       (3, "MainCrestaZone", "High", "Low"),
       (6, "Gender", "Female", "Male")] ∧
    ∃ r, (applyBH (rawRecs constModel (prepOut sampleFrame)))[(1 : ℕ)]? = some r ∧
      r.test = "T-Test" ∧ r.metric = "claim_severity" ∧
      r.group_a = "Gauteng" ∧ r.group_b = "KwaZulu-Natal" ∧
      ((2 ≤ (claimVals (prepOut sampleFrame) "Province" "Gauteng").length ∧
        2 ≤ (claimVals (prepOut sampleFrame) "Province" "KwaZulu-Natal").length) →
        r.p_value = some (constModel.tp
          (claimVals (prepOut sampleFrame) "Province" "Gauteng")
          (claimVals (prepOut sampleFrame) "Province" "KwaZulu-Natal")) ∧
        r.skipped = false) ∧
      (((claimVals (prepOut sampleFrame) "Province" "Gauteng").length < 2 ∨
        (claimVals (prepOut sampleFrame) "Province" "KwaZulu-Natal").length < 2) →
        r.p_value = none ∧ r.p_value_adjusted = none ∧ r.skipped = true) :=
  ⟨rfl, by decide,
    severity_tests constModel (prepOut sampleFrame) _ rfl 1 "Province" "Gauteng"
      "KwaZulu-Natal" (by decide)⟩

theorem getBool_eq_some {r : Row} {c : String} {b : Bool} :
    getBool r c = some b ↔ getV r c = some (Val.vbool b) := by
  unfold getBool
  rcases getV r c with _ | v
  · simp
  · cases v <;> simp

theorem dedup_len_le_one {l : List Val} (e : Val) (h : ∀ x ∈ l, x = e) :
    l.dedup.length ≤ 1 := by
  induction l with
  | nil => simp
  | cons a as ih =>
    have ha : a = e := h a (List.mem_cons_self a as)
    by_cases hmem : a ∈ as
    · rw [List.dedup_cons_of_mem hmem]
      exact ih (fun x hx => h x (List.mem_cons_of_mem a hx))
    · rw [List.dedup_cons_of_not_mem hmem]
      cases as with
      | nil => simp
      | cons x xs =>
        exfalso
        apply hmem
        have hx : x = e := h x (by simp)
        simp [ha, hx]

/-- C9: after preparation, if every row of the "Gauteng" and the
"KwaZulu-Natal" group has claim amount 0, the province claim-frequency
chi-squared test (the first record of the battery) reports a raw p-value of
exactly 1. -/
theorem all_zero_claims_freq_p_one (M : PModel) (t u : Frame) (recs : List TestRec)
    (h1 : prepare_hypothesis_data t = .ok u)
    (h2 : ∀ r ∈ u, (getV r "Province" = some (Val.vstr "Gauteng") ∨
        getV r "Province" = some (Val.vstr "KwaZulu-Natal")) →
        getNum r "TotalClaims" = some 0)
    (h3 : run_all_hypothesis_tests M u = .ok recs) :
    ∃ r, recs[0]? = some r ∧ r.test = "Chi-Squared" ∧
      r.metric = "claim_frequency" ∧ r.p_value = some 1 := by
  obtain ⟨-, hu⟩ := prepare_ok_iff.mp h1
  have hrecs := run_ok h3
  subst hrecs
  refine ⟨_, rfl, rfl, rfl, ?_⟩
  show some (freqP M (hasClaimVals u "Province" "Gauteng")
      (hasClaimVals u "Province" "KwaZulu-Natal")) = some 1
  have hall : ∀ v, v = "Gauteng" ∨ v = "KwaZulu-Natal" →
      ∀ x ∈ hasClaimVals u "Province" v, x = Val.vbool false := by
    intro v hv x hx
    rcases List.mem_filterMap.mp hx with ⟨r, hr, hrx⟩
    obtain ⟨hru, hrp⟩ := List.mem_filter.mp hr
    have hprov : getV r "Province" = some (Val.vstr "Gauteng") ∨
        getV r "Province" = some (Val.vstr "KwaZulu-Natal") := by
      have := of_decide_eq_true hrp
      rcases hv with rfl | rfl
      · exact Or.inl this
      · exact Or.inr this
    have hclaim0 := h2 r hru hprov
    obtain ⟨p, c, g, -, hc, -, -, -, -, -, hhc⟩ := by
      subst hu
      exact prepOut_row_fields t r hru
    have hc0 : c = 0 := by
      rw [hc] at hclaim0
      exact Option.some_inj.mp hclaim0
    have hfalse : getV r "has_claim" = some (Val.vbool false) := by
      have := getBool_eq_some.mp hhc
      rw [hc0] at this
      simpa using this
    rw [hfalse] at hrx
    exact (Option.some_inj.mp hrx).symm
  have hlen : (chi2Cats (hasClaimVals u "Province" "Gauteng")
      (hasClaimVals u "Province" "KwaZulu-Natal")).length ≤ 1 := by
    apply dedup_len_le_one (Val.vbool false)
    intro x hx
    rcases List.mem_append.mp hx with hx | hx
    · exact hall "Gauteng" (Or.inl rfl) x hx
    · exact hall "KwaZulu-Natal" (Or.inr rfl) x hx
  rw [freqP, if_pos hlen]

theorem all_zero_claims_freq_p_one_witness :
    prepare_hypothesis_data sampleFrameZero = .ok (prepOut sampleFrameZero) ∧
    (∀ r ∈ prepOut sampleFrameZero,
      (getV r "Province" = some (Val.vstr "Gauteng") ∨
        getV r "Province" = some (Val.vstr "KwaZulu-Natal")) →
      getNum r "TotalClaims" = some 0) ∧
    ∃ r, (applyBH (rawRecs constModel (prepOut sampleFrameZero)))[(0 : ℕ)]? = some r ∧
      r.test = "Chi-Squared" ∧ r.metric = "claim_frequency" ∧ r.p_value = some 1 :=
  ⟨rfl, by decide,
    all_zero_claims_freq_p_one constModel sampleFrameZero (prepOut sampleFrameZero)
      _ rfl (by decide) rfl⟩

theorem check_ok {M : PModel} {t : Frame} {col a b : String} {attrs : List String}
    {rep : List EquivRec} {sk : List String}
    (h : check_group_equivalence M t col a b attrs = .ok (rep, sk)) :
    rep = attrs.filterMap (equivRow M t col a b) ∧
    sk = attrs.filter (fun x => (equivRow M t col a b x).isNone) := by
  unfold check_group_equivalence at h
  split at h
  · cases h
  · split at h
    · cases h
    · have h2 := Except.ok.inj h
      exact ⟨(congrArg Prod.fst h2).symm, (congrArg Prod.snd h2).symm⟩

theorem equivTest_bounds (M : PModel) (ga gb : List Val) {pr : String × ℚ}
    (h : equivTest M ga gb = some pr) : 0 ≤ pr.2 ∧ pr.2 ≤ 1 := by
  unfold equivTest at h
  split at h
  · split at h
    · cases h
    · cases h
      exact M.chi2p_mem _ _ (chi2Stat_nonneg ga gb)
  · split at h
    · split at h
      · rename_i hcond
        cases h
        exact M.tp_mem _ _ hcond.1 hcond.2
      · cases h
    · cases h

/-- C6: in every successful equivalence check, an attribute whose values are
categorical but whose contingency table is degenerate (a zero-count cell, or
the observed categories collapsing to at most one) is deterministically
excluded from the returned report and flagged in the returned skip list;
and every p-value in the report is a well-defined rational in [0,1] (never
NaN or inf). -/
theorem equiv_degenerate_skipped (M : PModel) (t : Frame) (col a b : String)
    (attrs : List String) (rep : List EquivRec) (sk : List String)
    (h : check_group_equivalence M t col a b attrs = .ok (rep, sk)) :
    (∀ attr ∈ attrs,
      allStr (attrVals t col a attr ++ attrVals t col b attr) = true →
      chi2Degenerate (attrVals t col a attr) (attrVals t col b attr) = true →
      (∀ e ∈ rep, e.column ≠ attr) ∧ attr ∈ sk) ∧
    (∀ e ∈ rep, 0 ≤ e.p_value ∧ e.p_value ≤ 1) := by
  obtain ⟨hrep, hsk⟩ := check_ok h
  subst hrep
  subst hsk
  constructor
  · intro attr hattr hstr hdeg
    have hrow : equivRow M t col a b attr = none := by
      by_cases hne : attrVals t col a attr ++ attrVals t col b attr = []
      · simp [equivRow, equivTest, hne]
      · simp [equivRow, equivTest, hne, hstr, hdeg]
    constructor
    · intro e he hcol
      rcases List.mem_filterMap.mp he with ⟨x, hx, hxe⟩
      rcases ho : equivTest M (attrVals t col a x) (attrVals t col b x) with _ | pr
      · rw [equivRow, ho] at hxe
        cases hxe
      · rw [equivRow, ho] at hxe
        have hex : e = ⟨x, pr.1, pr.2⟩ := (Option.some_inj.mp hxe).symm
        have hxattr : x = attr := by
          rw [hex] at hcol
          exact hcol
        rw [hxattr] at ho
        rw [equivRow, ho] at hrow
        cases hrow
    · exact List.mem_filter.mpr ⟨hattr, by rw [hrow]; rfl⟩
  · intro e he
    rcases List.mem_filterMap.mp he with ⟨x, hx, hxe⟩
    rcases ho : equivTest M (attrVals t col a x) (attrVals t col b x) with _ | pr
    · rw [equivRow, ho] at hxe
      cases hxe
    · rw [equivRow, ho] at hxe
      have hex : e = ⟨x, pr.1, pr.2⟩ := (Option.some_inj.mp hxe).symm
      have := equivTest_bounds M _ _ ho
      rw [hex]
      exact this

theorem equiv_degenerate_skipped_witness :
    check_group_equivalence constModel sampleFrameEq "Province" "Gauteng"
      "KwaZulu-Natal" ["CoverType", "Gender"] =
      .ok (["CoverType", "Gender"].filterMap
            (equivRow constModel sampleFrameEq "Province" "Gauteng" "KwaZulu-Natal"),
          ["CoverType", "Gender"].filter (fun x =>
            (equivRow constModel sampleFrameEq "Province" "Gauteng" "KwaZulu-Natal"
              x).isNone)) ∧
    allStr (attrVals sampleFrameEq "Province" "Gauteng" "CoverType" ++
      attrVals sampleFrameEq "Province" "KwaZulu-Natal" "CoverType") = true ∧
    chi2Degenerate (attrVals sampleFrameEq "Province" "Gauteng" "CoverType")
      (attrVals sampleFrameEq "Province" "KwaZulu-Natal" "CoverType") = true ∧
    ((∀ e ∈ ["CoverType", "Gender"].filterMap
        (equivRow constModel sampleFrameEq "Province" "Gauteng" "KwaZulu-Natal"),
        e.column ≠ "CoverType") ∧
      "CoverType" ∈ ["CoverType", "Gender"].filter (fun x =>
        (equivRow constModel sampleFrameEq "Province" "Gauteng" "KwaZulu-Natal"
          x).isNone)) :=
  ⟨rfl, by decide, by decide,
    (equiv_degenerate_skipped constModel sampleFrameEq "Province" "Gauteng"
      "KwaZulu-Natal" ["CoverType", "Gender"] _ _ rfl).1 "CoverType" (by decide)
      (by decide) (by decide)⟩
